import Mathlib

/-!
Shallow embedding of the Bitcoin P2P client (Rust-Seminar repository):
wire codec (compact-size, message framing, inv/getdata/addr payloads),
session inventory policy, peer database operations, and the DNS seed
responder.  Bytes are modelled as `Nat` (with explicit `% 256` where the
source performs a machine-width cast), byte strings as `List Nat`, and
machine integers as `Nat` with explicit `% 2^w`.
-/

namespace BtcSeminar

set_option maxRecDepth 2000000

/-- The modulus 2^32 for 32-bit arithmetic. -/
def M32 : Nat := 4294967296

/-- Little-endian byte decoding (`u16/u32/u64::from_le_bytes`). -/
def fromLE (l : List Nat) : Nat := l.foldr (fun b acc => b + 256 * acc) 0

/-- Big-endian byte decoding (`u16::from_be_bytes`, SHA word loads). -/
def fromBE (l : List Nat) : Nat := l.foldl (fun acc b => acc * 256 + b) 0

/-- Rust `u16::to_le_bytes`. -/
def toLE2 (n : Nat) : List Nat := [n % 256, n / 256 % 256]

/-- Rust `u32::to_le_bytes`. -/
def toLE4 (n : Nat) : List Nat :=
  [n % 256, n / 256 % 256, n / 65536 % 256, n / 16777216 % 256]

/-- Rust `u64::to_le_bytes`. -/
def toLE8 (n : Nat) : List Nat :=
  [n % 256, n / 256 % 256, n / 65536 % 256, n / 16777216 % 256,
   n / 4294967296 % 256, n / 1099511627776 % 256,
   n / 281474976710656 % 256, n / 72057594037927936 % 256]

/-- Rust `u16::to_be_bytes`. -/
def toBE2 (n : Nat) : List Nat := [n / 256 % 256, n % 256]

/-- Big-endian 32-bit bytes (SHA-256 word stores). -/
def toBE4 (n : Nat) : List Nat :=
  [n / 16777216 % 256, n / 65536 % 256, n / 256 % 256, n % 256]

/-- Big-endian 64-bit bytes (SHA-256 length field). -/
def toBE8 (n : Nat) : List Nat :=
  [n / 72057594037927936 % 256, n / 281474976710656 % 256,
   n / 1099511627776 % 256, n / 4294967296 % 256,
   n / 16777216 % 256, n / 65536 % 256, n / 256 % 256, n % 256]

/-! ### SHA-256 (the `sha2` crate dependency, FIPS 180-4)

Implemented bit-for-bit so that `sha256d` (double SHA-256, used for
frame checksums) is executable. -/

/-- Bitwise and on 32-bit words (operands stay below 2^32 throughout). -/
def land32 (a b : Nat) : Nat := Nat.land a b

/-- Bitwise xor on 32-bit words (operands stay below 2^32 throughout). -/
def lxor32 (a b : Nat) : Nat := Nat.xor a b

/-- Bitwise complement on 32-bit words (argument below 2^32). -/
def not32 (a : Nat) : Nat := 4294967295 - a % M32

/-- Rotate a 32-bit word right by `n`. -/
def rotr32 (n x : Nat) : Nat := x / 2 ^ n + x % 2 ^ n * 2 ^ (32 - n)

/-- Logical shift right. -/
def shr32 (n x : Nat) : Nat := x / 2 ^ n

/-- SHA-256 Ch function. -/
def ch32 (e f g : Nat) : Nat := lxor32 (land32 e f) (land32 (not32 e) g)

/-- SHA-256 Maj function. -/
def maj32 (a b c : Nat) : Nat :=
  lxor32 (lxor32 (land32 a b) (land32 a c)) (land32 b c)

/-- SHA-256 big sigma 0. -/
def bigS0 (x : Nat) : Nat := lxor32 (lxor32 (rotr32 2 x) (rotr32 13 x)) (rotr32 22 x)

/-- SHA-256 big sigma 1. -/
def bigS1 (x : Nat) : Nat := lxor32 (lxor32 (rotr32 6 x) (rotr32 11 x)) (rotr32 25 x)

/-- SHA-256 small sigma 0. -/
def smallS0 (x : Nat) : Nat := lxor32 (lxor32 (rotr32 7 x) (rotr32 18 x)) (shr32 3 x)

/-- SHA-256 small sigma 1. -/
def smallS1 (x : Nat) : Nat := lxor32 (lxor32 (rotr32 17 x) (rotr32 19 x)) (shr32 10 x)

/-- SHA-256 round constants. -/
def K256 : List Nat :=
  [1116352408, 1899447441, 3049323471, 3921009573,
   961987163, 1508970993, 2453635748, 2870763221,
   3624381080, 310598401, 607225278, 1426881987,
   1925078388, 2162078206, 2614888103, 3248222580,
   3835390401, 4022224774, 264347078, 604807628,
   770255983, 1249150122, 1555081692, 1996064986,
   2554220882, 2821834349, 2952996808, 3210313671,
   3336571891, 3584528711, 113926993, 338241895,
   666307205, 773529912, 1294757372, 1396182291,
   1695183700, 1986661051, 2177026350, 2456956037,
   2730485921, 2820302411, 3259730800, 3345764771,
   3516065817, 3600352804, 4094571909, 275423344,
   430227734, 506948616, 659060556, 883997877,
   958139571, 1322822218, 1537002063, 1747873779,
   1955562222, 2024104815, 2227730452, 2361852424,
   2428436474, 2756734187, 3204031479, 3329325298]

/-- The eight working variables of the compression function. -/
structure Hash8 where
  a : Nat
  b : Nat
  c : Nat
  d : Nat
  e : Nat
  f : Nat
  g : Nat
  h : Nat
deriving Repr, DecidableEq

/-- SHA-256 initial hash value. -/
def H256init : Hash8 :=
  { a := 1779033703, b := 3144134277, c := 1013904242, d := 2773480762,
    e := 1359893119, f := 2600822924, g := 528734635, h := 1541459225 }

/-- Extend the 16 loaded words to the 64-entry message schedule. -/
def extendW : Nat → List Nat → List Nat
  | 0, w => w
  | k + 1, w =>
    let i := w.length
    let wi := (smallS1 (w.getD (i - 2) 0) + w.getD (i - 7) 0 +
               smallS0 (w.getD (i - 15) 0) + w.getD (i - 16) 0) % M32
    extendW k (w ++ [wi])

/-- One SHA-256 compression round. -/
def roundStep (st : Hash8) (kw : Nat × Nat) : Hash8 :=
  let t1 := (st.h + bigS1 st.e + ch32 st.e st.f st.g + kw.1 + kw.2) % M32
  let t2 := (bigS0 st.a + maj32 st.a st.b st.c) % M32
  { a := (t1 + t2) % M32, b := st.a, c := st.b, d := st.c,
    e := (st.d + t1) % M32, f := st.e, g := st.f, h := st.g }

/-- Compress one 64-byte chunk into the running hash state. -/
def compressChunk (hv : Hash8) (chunk : List Nat) : Hash8 :=
  let w0 := (List.range 16).map (fun i => fromBE ((chunk.drop (4 * i)).take 4))
  let w := extendW 48 w0
  let st := (K256.zip w).foldl roundStep hv
  { a := (hv.a + st.a) % M32, b := (hv.b + st.b) % M32,
    c := (hv.c + st.c) % M32, d := (hv.d + st.d) % M32,
    e := (hv.e + st.e) % M32, f := (hv.f + st.f) % M32,
    g := (hv.g + st.g) % M32, h := (hv.h + st.h) % M32 }

/-- Split a byte string into 64-byte chunks (fuel-bounded). -/
def chunks64 : Nat → List Nat → List (List Nat)
  | 0, _ => []
  | _, [] => []
  | fuel + 1, l => l.take 64 :: chunks64 fuel (l.drop 64)

/-- SHA-256 of a byte string. -/
def sha256 (msg : List Nat) : List Nat :=
  let len := msg.length
  let padded := msg ++ [0x80] ++ List.replicate ((119 - len % 64) % 64) 0 ++
                toBE8 (8 * len)
  let hv := (chunks64 padded.length padded).foldl compressChunk H256init
  toBE4 hv.a ++ toBE4 hv.b ++ toBE4 hv.c ++ toBE4 hv.d ++
  toBE4 hv.e ++ toBE4 hv.f ++ toBE4 hv.g ++ toBE4 hv.h

/-- Double SHA-256 (`sha256d` in `src/p2p/utils.rs`). -/
def sha256d (data : List Nat) : List Nat := sha256 (sha256 data)

/-! ### Message framing (`src/p2p/messageheader.rs`, `read_message`) -/

/-- Mainnet network magic `F9 BE B4 D9` (`MAGIC` in `src/p2p/utils.rs`). -/
def MAGIC : List Nat := [0xF9, 0xBE, 0xB4, 0xD9]

/-- The `MessageHeader` of `src/p2p/messageheader.rs`: 4-byte magic, 12-byte
NUL-padded command, `u32` payload length, 4-byte checksum. -/
structure MessageHeader where
  magic : List Nat
  command : List Nat
  payload_size : Nat
  checksum : List Nat
deriving Repr, DecidableEq

namespace MessageHeader

/-- Source `MessageHeader::new`: NUL-pad the command to 12 bytes, checksum is the
first 4 bytes of double SHA-256 of the payload, `payload_size` is the
payload length cast to `u32`.  (The source copies the command with
`copy_from_slice` and would panic past 12 bytes; claims restrict to
commands of at most 12 bytes.) -/
def new (command : List Nat) (payload : List Nat) : MessageHeader :=
  { magic := MAGIC,
    command := command.take 12 ++ List.replicate (12 - command.length) 0,
    payload_size := payload.length % M32,
    checksum := (sha256d payload).take 4 }

/-- Source `MessageHeader::to_bytes`: magic, command, LE payload size, checksum. -/
def to_bytes (h : MessageHeader) : List Nat :=
  h.magic ++ h.command ++ toLE4 h.payload_size ++ h.checksum

/-- Source `MessageHeader::from_bytes`: fails on fewer than 24 bytes, otherwise
splits the fields back out (payload size read little-endian). -/
def from_bytes (data : List Nat) : Option MessageHeader :=
  if data.length < 24 then none
  else some
    { magic := data.take 4,
      command := (data.drop 4).take 12,
      payload_size := fromLE ((data.drop 16).take 4),
      checksum := (data.drop 20).take 4 }

end MessageHeader

/-- Error outcomes of `BitcoinClient::read_message`
(`std::io::Error` values in the source). -/
inductive ReadError where
  /-- the non-blocking header read did not obtain 24 bytes -/
  | headerShort
  /-- magic bytes differ from the mainnet constant -/
  | invalidMagic
  /-- the payload read hit end of stream before `payload_size` bytes -/
  | payloadShort
  /-- recomputed double-SHA-256 prefix differs from the checksum field -/
  | invalidChecksum
deriving Repr, DecidableEq

/-- Source `BitcoinClient::read_message` over the bytes available on the stream:
read a 24-byte header (an empty stream is the quiescent `Ok(None)` case;
a partial header surfaces as a read error), reject a magic mismatch,
read exactly `payload_size` payload bytes, and, when the payload is
non-empty, reject a checksum mismatch. -/
def read_message (input : List Nat) :
    Except ReadError (Option (MessageHeader × List Nat)) :=
  if input = [] then .ok none
  else
    match MessageHeader.from_bytes (input.take 24) with
    | none => .error .headerShort
    | some header =>
      if header.magic ≠ MAGIC then .error .invalidMagic
      else
        let rest := input.drop 24
        if rest.length < header.payload_size then .error .payloadShort
        else
          let payload := rest.take header.payload_size
          if header.payload_size > 0 then
            if header.checksum ≠ (sha256d payload).take 4 then
              .error .invalidChecksum
            else .ok (some (header, payload))
          else .ok (some (header, payload))

/-! ### Compact-size integers and inventory (`src/p2p/utils.rs`,
`src/p2p/p2p_client.rs`) -/

/-- Source `parse_compact_size`: returns `(value, bytes consumed)`; an empty
buffer gives `(0, 0)` and a buffer too short for the declared
discriminator gives `(0, 1)`. -/
def parse_compact_size (data : List Nat) : Nat × Nat :=
  match data with
  | [] => (0, 0)
  | b :: _ =>
    if b ≤ 0xFC then (b, 1)
    else if b = 0xFD then
      if data.length ≥ 3 then (fromLE ((data.drop 1).take 2), 3) else (0, 1)
    else if b = 0xFE then
      if data.length ≥ 5 then (fromLE ((data.drop 1).take 4), 5) else (0, 1)
    else
      if data.length ≥ 9 then (fromLE ((data.drop 1).take 8), 9) else (0, 1)

/-- The `InventoryType` enum of `src/p2p/p2p_client.rs`. -/
inductive InventoryType where
  | Error
  | Transaction
  | Block
  | FilteredBlock
  | CompactBlock
  | WitnessTransaction
  | WitnessBlock
  | FilteredWitnessBlock
deriving Repr, DecidableEq

namespace InventoryType

/-- Source `InventoryType::from_u32`: unknown codes map to `Error`. -/
def from_u32 (value : Nat) : InventoryType :=
  if value = 0 then .Error
  else if value = 1 then .Transaction
  else if value = 2 then .Block
  else if value = 3 then .FilteredBlock
  else if value = 4 then .CompactBlock
  else if value = 0x40000001 then .WitnessTransaction
  else if value = 0x40000002 then .WitnessBlock
  else if value = 0x40000003 then .FilteredWitnessBlock
  else .Error

/-- The enum discriminant used by `item.inv_type as u32`. -/
def toU32 : InventoryType → Nat
  | .Error => 0
  | .Transaction => 1
  | .Block => 2
  | .FilteredBlock => 3
  | .CompactBlock => 4
  | .WitnessTransaction => 0x40000001
  | .WitnessBlock => 0x40000002
  | .FilteredWitnessBlock => 0x40000003

end InventoryType

/-- An `InventoryItem`: a 4-byte type plus 32-byte hash. -/
structure InventoryItem where
  inv_type : InventoryType
  hash : List Nat
deriving Repr, DecidableEq

/-- The item-reading loop of `parse_inv_message`: up to `count` items,
stopping as soon as fewer than 36 bytes remain past `offset`. -/
def parse_inv_loop : Nat → Nat → List Nat → List InventoryItem
  | 0, _, _ => []
  | n + 1, offset, payload =>
    if offset + 36 > payload.length then []
    else
      { inv_type := InventoryType.from_u32 (fromLE ((payload.drop offset).take 4)),
        hash := (payload.drop (offset + 4)).take 32 } ::
      parse_inv_loop n (offset + 36) payload

/-- Source `parse_inv_message`: compact-size count then `count` 36-byte items. -/
def parse_inv_message (payload : List Nat) : List InventoryItem :=
  if payload = [] then []
  else
    let c := parse_compact_size payload
    if c.1 = 0 then []
    else parse_inv_loop c.1 c.2 payload

/-- The compact-size prefix written by `build_getdata_payload`
(lines 60-72 of `src/p2p/utils.rs`), with the source's `as u8`/`as u16`/
`as u32` casts made explicit. -/
def compactSizeOfCount (count : Nat) : List Nat :=
  if count < 0xFD then [count % 256]
  else if count ≤ 0xFFFF then 0xFD :: toLE2 (count % 65536)
  else if count ≤ 0xFFFFFFFF then 0xFE :: toLE4 (count % M32)
  else 0xFF :: toLE8 (count % 18446744073709551616)

/-- Source `build_getdata_payload`: compact-size count, then per item the LE
`u32` type code and the 32-byte hash. -/
def build_getdata_payload (items : List InventoryItem) : List Nat :=
  compactSizeOfCount items.length ++
  items.flatMap (fun item => toLE4 item.inv_type.toU32 ++ item.hash)

/-- One iteration of the `handle_inv_message` loop over decoded items:
the state is the session's seen-set paired with the `getdata` batch
collected so far.  A hash already seen is skipped; a new hash is
inserted and the item joins the batch according to its type, the
transaction and block limits both testing the length of the shared
batch. -/
def inv_step (st : List (List Nat) × List InventoryItem) (item : InventoryItem) :
    List (List Nat) × List InventoryItem :=
  if item.hash ∈ st.1 then st
  else
    let seen := item.hash :: st.1
    match item.inv_type with
    | .Transaction | .WitnessTransaction =>
      if st.2.length < 10 then (seen, st.2 ++ [item]) else (seen, st.2)
    | .Block | .WitnessBlock =>
      if st.2.length < 3 then (seen, st.2 ++ [item]) else (seen, st.2)
    | .CompactBlock => (seen, st.2 ++ [item])
    | _ => (seen, st.2)

/-- Source `BitcoinClient::handle_inv_message`: parse the payload, fold the
inventory policy over the items, and if the batch is non-empty emit one
`getdata` payload.  Returns the updated seen-set and the optional
outbound `getdata` payload. -/
def handle_inv_message (seen : List (List Nat)) (payload : List Nat) :
    List (List Nat) × Option (List Nat) :=
  let items := parse_inv_message payload
  if items.isEmpty then (seen, none)
  else
    let st := items.foldl inv_step (seen, [])
    if st.2.isEmpty then (st.1, none)
    else (st.1, some (build_getdata_payload st.2))

/-! ### Address gossip (`parse_addr_message` in `src/p2p/utils.rs`) -/

/-- Model of `std::net::SocketAddr`: an IPv4 socket address carries 4 octets, an
IPv6 one 16 bytes; both carry a port. -/
inductive SocketAddress where
  | v4 : List Nat → Nat → SocketAddress
  | v6 : List Nat → Nat → SocketAddress
deriving Repr, DecidableEq

/-- The body of the `parse_addr_message` loop on one 30-byte entry:
skip 4 timestamp and 8 services bytes, read the 16-byte IP (IPv4 when
the first 12 bytes are ten zero bytes then `FF FF`), read the port
big-endian. -/
def decode_addr_entry (entry : List Nat) : SocketAddress :=
  let ip_bytes := (entry.drop 12).take 16
  let port := fromBE ((entry.drop 28).take 2)
  if ip_bytes.take 12 = [0, 0, 0, 0, 0, 0, 0, 0, 0, 0, 0xFF, 0xFF] then
    .v4 (ip_bytes.drop 12) port
  else .v6 ip_bytes port

/-- The entry loop of `parse_addr_message`: up to `n` entries, stopping
as soon as fewer than 30 bytes remain past `offset`.  (The source's
second bounds check, on the two port bytes, can never fire once 30
bytes are known to remain, and is subsumed by the first.) -/
def parse_addr_loop : Nat → Nat → List Nat → List SocketAddress
  | 0, _, _ => []
  | n + 1, offset, payload =>
    if offset + 30 > payload.length then []
    else
      decode_addr_entry ((payload.drop offset).take 30) ::
      parse_addr_loop n (offset + 30) payload

/-- Source `parse_addr_message`: compact-size count, then at most
`min count 10` 30-byte entries (`addresses_to_show = count.min(10)` in
the source). -/
def parse_addr_message (payload : List Nat) : List SocketAddress :=
  if payload = [] then []
  else
    let c := parse_compact_size payload
    if c.1 = 0 then []
    else parse_addr_loop (min c.1 10) c.2 payload

/-! ### Peer database (`src/p2p/database.rs`)

The `HashMap<SocketAddr, PeerInfo>` is modelled as an association list
with at most one entry per key; `SystemTime::now` is passed in as an
explicit `now` argument. -/

/-- The `PeerStatus` enum of `src/p2p/database.rs`. -/
inductive PeerStatus where
  | NeverTried
  | ConnectedRecently
  | Unreachable
  | Banned
deriving Repr, DecidableEq

/-- A `PeerInfo` record: one row of the peer database. -/
structure PeerInfo where
  address : SocketAddress
  last_seen : Option Nat
  last_connected : Option Nat
  status : PeerStatus
  services : Option Nat
deriving Repr, DecidableEq

/-- The `PeerDatabase`: the peer map as an association list. -/
structure PeerDatabase where
  peers : List (SocketAddress × PeerInfo)
deriving Repr, DecidableEq

namespace PeerDatabase

/-- The empty database (`PeerDatabase::default`). -/
def empty : PeerDatabase := { peers := [] }

/-- Lookup (`HashMap::get`) on the association list. -/
def lookup (db : PeerDatabase) (addr : SocketAddress) : Option PeerInfo :=
  (db.peers.find? (fun e => e.1 = addr)).map (fun e => e.2)

/-- Replace the value stored under an existing key, in place. -/
def setEntry (db : PeerDatabase) (addr : SocketAddress) (info : PeerInfo) :
    PeerDatabase :=
  { peers := db.peers.map (fun e => if e.1 = addr then (addr, info) else e) }

/-- Source `PeerDatabase::register_peer`: upsert.  A fresh entry starts as
`NeverTried` with `last_connected = None`; on every call `last_seen` is
refreshed to `now` and `services` is overwritten only when the argument
is `Some`. -/
def register_peer (db : PeerDatabase) (now : Nat) (addr : SocketAddress)
    (services : Option Nat) : PeerDatabase :=
  match db.lookup addr with
  | none =>
    { peers := db.peers ++
        [(addr, { address := addr, last_seen := some now,
                  last_connected := none, status := .NeverTried,
                  services := services })] }
  | some entry =>
    db.setEntry addr
      { entry with
        last_seen := some now,
        services := match services with
                    | some s => some s
                    | none => entry.services }

/-- Source `PeerDatabase::_update_status`: set the status of an existing entry,
stamping `last_connected` with the current time on a transition to
`ConnectedRecently`; an absent key is a no-op. -/
def _update_status (db : PeerDatabase) (now : Nat) (addr : SocketAddress)
    (status : PeerStatus) : PeerDatabase :=
  match db.lookup addr with
  | none => db
  | some peer =>
    db.setEntry addr
      { peer with
        status := status,
        last_connected :=
          if status = PeerStatus.ConnectedRecently then some now
          else peer.last_connected }

end PeerDatabase

/-- One database mutation, with the wall-clock second it runs at. -/
inductive DbOp where
  | reg : Nat → SocketAddress → Option Nat → DbOp
  | upd : Nat → SocketAddress → PeerStatus → DbOp
deriving Repr, DecidableEq

/-- Apply a sequence of database mutations in order. -/
def applyOps (db : PeerDatabase) : List DbOp → PeerDatabase
  | [] => db
  | .reg now addr services :: rest => applyOps (db.register_peer now addr services) rest
  | .upd now addr status :: rest => applyOps (db._update_status now addr status) rest

/-! ### DNS seed responder (`src/p2p/dns_server.rs`)

The qname is modelled as the list of label byte strings (the source
joins them with a dot into a `String`). -/

/-- The label-reading loop of `parse_dns_query`: walk the labels starting
at `idx`; fail when a label overruns the buffer or no terminator is
found.  Returns the labels and the index just past the zero
terminator. -/
def dns_labels_loop : Nat → Nat → List Nat → List (List Nat) →
    Option (List (List Nat) × Nat)
  | 0, _, _, _ => none
  | fuel + 1, idx, req, acc =>
    if h : idx < req.length then
      if req.get ⟨idx, h⟩ = 0 then some (acc.reverse, idx + 1)
      else
        let len := req.get ⟨idx, h⟩
        if idx + 1 + len > req.length then none
        else dns_labels_loop fuel (idx + 1 + len) req
               (((req.drop (idx + 1)).take len) :: acc)
    else none

/-- Source `parse_dns_query`: require a 12-byte header, reject responses
(`flags & 0x8000 != 0`) and zero `QDCOUNT`, read the labels, then the
4 bytes of QTYPE and QCLASS.  Returns `(txid, is_a_query, qname)`. -/
def parse_dns_query (req : List Nat) :
    Option (Nat × Bool × List (List Nat)) :=
  if req.length < 12 then none
  else
    let txid := fromBE (req.take 2)
    let flags := fromBE ((req.drop 2).take 2)
    let qdcount := fromBE ((req.drop 4).take 2)
    if Nat.land flags 0x8000 ≠ 0 ∨ qdcount = 0 then none
    else
      match dns_labels_loop req.length 12 req [] with
      | none => none
      | some (labels, idx) =>
        if idx + 4 > req.length then none
        else
          let qtype := fromBE ((req.drop idx).take 2)
          let qclass := fromBE ((req.drop (idx + 2)).take 2)
          some (txid, qtype = 1 ∧ qclass = 1, labels)

/-- The question-section scan shared by `build_dns_response` and
`build_dns_notimpl`: from offset 12, skip labels until the zero
terminator, then take it plus the 4 QTYPE/QCLASS bytes. -/
def dns_question_end : Nat → Nat → List Nat → Nat
  | 0, idx, _ => idx
  | fuel + 1, idx, req =>
    if h : idx < req.length then
      if req.get ⟨idx, h⟩ = 0 then idx + 5
      else dns_question_end fuel (idx + 1 + req.get ⟨idx, h⟩) req
    else idx

/-- RDATA of one answer record: the IPv4 octets, or `0.0.0.0` for an
IPv6 peer. -/
def dns_rdata : SocketAddress → List Nat
  | .v4 ip _ => ip
  | .v6 _ _ => [0, 0, 0, 0]

/-- One 16-byte A-record: compression pointer to offset 12, TYPE=A,
CLASS=IN, TTL=60, RDLENGTH=4, then the RDATA. -/
def dns_answer_record (peer : SocketAddress) : List Nat :=
  [0xC0, 0x0C, 0x00, 0x01, 0x00, 0x01, 0x00, 0x00, 0x00, 0x3C, 0x00, 0x04] ++
  dns_rdata peer

/-- Source `build_dns_response`: txid, flags `0x8180`, QDCOUNT=1,
ANCOUNT = number of sampled peers, NSCOUNT=ARCOUNT=0, the question
section copied from the request, then one A-record per sampled peer. -/
def build_dns_response (req : List Nat) (txid : Nat)
    (peers : List SocketAddress) : List Nat :=
  toBE2 txid ++ [0x81, 0x80] ++ [0x00, 0x01] ++ toBE2 (peers.length % 65536) ++
  [0x00, 0x00] ++ [0x00, 0x00] ++
  ((req.drop 12).take (dns_question_end req.length 12 req - 12)) ++
  peers.flatMap dns_answer_record

/-- The reachable subset the responder samples from: records whose
status is `ConnectedRecently`, projected to their addresses. -/
def reachable_peers (db : PeerDatabase) : List SocketAddress :=
  (db.peers.filter (fun e => e.2.status = PeerStatus.ConnectedRecently)).map
    (fun e => e.2.address)

/-- ANCOUNT field of a DNS message. -/
def ancount (resp : List Nat) : Nat := fromBE ((resp.drop 6).take 2)

/-! ## Supporting lemmas -/

theorem fromLE_toLE2 (n : Nat) (h : n < 65536) : fromLE (toLE2 n) = n := by
  simp only [toLE2, fromLE, List.foldr]
  omega

theorem fromLE_toLE4 (n : Nat) (h : n < 4294967296) : fromLE (toLE4 n) = n := by
  simp only [toLE4, fromLE, List.foldr]
  omega

theorem fromLE_toLE8 (n : Nat) (h : n < 18446744073709551616) :
    fromLE (toLE8 n) = n := by
  simp only [toLE8, fromLE, List.foldr]
  omega

theorem fromBE_toBE2 (n : Nat) (h : n < 65536) : fromBE (toBE2 n) = n := by
  simp only [toBE2, fromBE, List.foldl]
  omega

theorem parse_compact_size_small (b : Nat) (hb : b ≤ 0xFC) (l : List Nat) :
    parse_compact_size (b :: l) = (b, 1) := by
  simp [parse_compact_size, hb]

theorem parse_compact_size_fd (a b : Nat) (l : List Nat) :
    parse_compact_size (0xFD :: a :: b :: l) = (a + 256 * b, 3) := by
  have h3 : (0xFD :: a :: b :: l : List Nat).length ≥ 3 := by
    simp only [List.length_cons]; omega
  simp [parse_compact_size, h3, fromLE]

theorem parse_compact_size_fe (a b c d : Nat) (l : List Nat) :
    parse_compact_size (0xFE :: a :: b :: c :: d :: l) =
      (a + 256 * b + 65536 * c + 16777216 * d, 5) := by
  have h5 : (0xFE :: a :: b :: c :: d :: l : List Nat).length ≥ 5 := by
    simp only [List.length_cons]; omega
  simp [parse_compact_size, h5, fromLE]
  ring

theorem parse_compact_size_ff (a b c d e f g h : Nat) (l : List Nat) :
    parse_compact_size (0xFF :: a :: b :: c :: d :: e :: f :: g :: h :: l) =
      (a + 256 * b + 65536 * c + 16777216 * d + 4294967296 * e +
       1099511627776 * f + 281474976710656 * g + 72057594037927936 * h, 9) := by
  have h9 : (0xFF :: a :: b :: c :: d :: e :: f :: g :: h :: l : List Nat).length ≥ 9 := by
    simp only [List.length_cons]; omega
  simp [parse_compact_size, h9, fromLE]
  ring

/-- The four shapes of the compact-size prefix, with the casts resolved
under the range hypothesis. -/
theorem compactSizeOfCount_eq_small (n : Nat) (h : n < 0xFD) :
    compactSizeOfCount n = [n] := by
  rw [compactSizeOfCount, if_pos h, Nat.mod_eq_of_lt (by omega)]

theorem compactSizeOfCount_eq_fd (n : Nat) (h1 : ¬ n < 0xFD) (h2 : n ≤ 0xFFFF) :
    compactSizeOfCount n = [0xFD, n % 256, n / 256 % 256] := by
  rw [compactSizeOfCount, if_neg h1, if_pos h2, Nat.mod_eq_of_lt (by omega)]
  rfl

theorem compactSizeOfCount_eq_fe (n : Nat) (h1 : ¬ n ≤ 0xFFFF)
    (h2 : n ≤ 0xFFFFFFFF) :
    compactSizeOfCount n =
      [0xFE, n % 256, n / 256 % 256, n / 65536 % 256, n / 16777216 % 256] := by
  rw [compactSizeOfCount, if_neg (by omega : ¬ n < 0xFD), if_neg h1, if_pos h2,
      Nat.mod_eq_of_lt (by simp only [M32]; omega)]
  rfl

theorem compactSizeOfCount_eq_ff (n : Nat) (h1 : ¬ n ≤ 0xFFFFFFFF)
    (hn : n < 18446744073709551616) :
    compactSizeOfCount n = 0xFF :: toLE8 n := by
  rw [compactSizeOfCount, if_neg (by omega : ¬ n < 0xFD),
      if_neg (by omega : ¬ n ≤ 0xFFFF), if_neg h1, Nat.mod_eq_of_lt hn]

/-- Parsing recovers the count from the prefix written by
`build_getdata_payload`, with any bytes following the prefix. -/
theorem parse_csize_append (n : Nat) (hn : n < 18446744073709551616)
    (rest : List Nat) :
    parse_compact_size (compactSizeOfCount n ++ rest) =
      (n, (compactSizeOfCount n).length) := by
  by_cases h1 : n < 0xFD
  · rw [compactSizeOfCount_eq_small n h1]
    simpa using parse_compact_size_small n (by omega) rest
  · by_cases h2 : n ≤ 0xFFFF
    · rw [compactSizeOfCount_eq_fd n h1 h2]
      simp only [List.cons_append, List.nil_append, parse_compact_size_fd,
        List.length_cons, List.length_nil]
      exact Prod.ext (by omega) rfl
    · by_cases h3 : n ≤ 0xFFFFFFFF
      · rw [compactSizeOfCount_eq_fe n h2 h3]
        simp only [List.cons_append, List.nil_append, parse_compact_size_fe,
          List.length_cons, List.length_nil]
        exact Prod.ext (by omega) rfl
      · rw [compactSizeOfCount_eq_ff n h3 hn]
        simp only [toLE8, List.cons_append, List.nil_append,
          parse_compact_size_ff, List.length_cons, List.length_nil]
        exact Prod.ext (by omega) rfl

/-! ## Claims -/

/-- C7: for every item count `n` below 2^64, the compact-size prefix
emitted by `build_getdata_payload` for a list of `n` items is the
minimal encoding (one byte for `n ≤ 0xFC`, discriminator `0xFD` plus 2
LE bytes up to `0xFFFF`, `0xFE` plus 4 up to `0xFFFFFFFF`, `0xFF` plus
8 otherwise), and `parse_compact_size` applied to that encoding returns
exactly `(n, length of the encoding)`. -/
theorem claim_C7 (n : Nat) (hn : n < 18446744073709551616) :
    parse_compact_size (compactSizeOfCount n) =
      (n, (compactSizeOfCount n).length) ∧
    (n ≤ 0xFC → compactSizeOfCount n = [n]) ∧
    (0xFC < n → n ≤ 0xFFFF →
      compactSizeOfCount n = [0xFD, n % 256, n / 256 % 256]) ∧
    (0xFFFF < n → n ≤ 0xFFFFFFFF →
      compactSizeOfCount n =
        [0xFE, n % 256, n / 256 % 256, n / 65536 % 256, n / 16777216 % 256]) ∧
    (0xFFFFFFFF < n → compactSizeOfCount n = 0xFF :: toLE8 n) ∧
    (∀ items : List InventoryItem, items.length = n →
      ∃ tail, build_getdata_payload items = compactSizeOfCount n ++ tail) := by
  refine ⟨?_, ?_, ?_, ?_, ?_, ?_⟩
  · simpa using parse_csize_append n hn []
  · intro h
    exact compactSizeOfCount_eq_small n (by omega)
  · intro h1 h2
    exact compactSizeOfCount_eq_fd n (by omega) h2
  · intro h1 h2
    exact compactSizeOfCount_eq_fe n (by omega) h2
  · intro h1
    exact compactSizeOfCount_eq_ff n (by omega) hn
  · intro items hitems
    exact ⟨_, by rw [build_getdata_payload, hitems]⟩

/-- Witness for C7 at `n = 300`: the encoding uses the `0xFD`
discriminator and parses back to `(300, 3)`. -/
theorem claim_C7_witness :
    parse_compact_size (compactSizeOfCount 300) =
      (300, (compactSizeOfCount 300).length) :=
  (claim_C7 300 (by decide)).1

/-- C9: a buffer whose first byte declares a multi-byte compact-size
form but which is too short for it (`0xFD` with fewer than 2 following
bytes, `0xFE` with fewer than 4, `0xFF` with fewer than 8) makes
`parse_compact_size` return `(0, 1)`. -/
theorem claim_C9 (data : List Nat) :
    (data.head? = some 0xFD → data.length < 3 → parse_compact_size data = (0, 1)) ∧
    (data.head? = some 0xFE → data.length < 5 → parse_compact_size data = (0, 1)) ∧
    (data.head? = some 0xFF → data.length < 9 → parse_compact_size data = (0, 1)) := by
  match data with
  | [] => simp
  | b :: t =>
    refine ⟨?_, ?_, ?_⟩ <;> intro hb hlen <;>
      simp only [List.head?_cons, Option.some.injEq] at hb <;> subst hb
    · have hshort : ¬ ((0xFD :: t : List Nat).length ≥ 3) := by
        simp only [List.length_cons] at hlen ⊢; omega
      simp only [List.length_cons] at hlen
      simp [parse_compact_size, hshort]
      omega
    · have hshort : ¬ ((0xFE :: t : List Nat).length ≥ 5) := by
        simp only [List.length_cons] at hlen ⊢; omega
      simp only [List.length_cons] at hlen
      simp [parse_compact_size, hshort]
      omega
    · have hshort : ¬ ((0xFF :: t : List Nat).length ≥ 9) := by
        simp only [List.length_cons] at hlen ⊢; omega
      simp only [List.length_cons] at hlen
      simp [parse_compact_size, hshort]
      omega

/-- Witness for C9: the three one-byte buffers `FD`, `FE`, `FF`. -/
theorem claim_C9_witness :
    parse_compact_size [0xFD] = (0, 1) ∧
    parse_compact_size [0xFE] = (0, 1) ∧
    parse_compact_size [0xFF] = (0, 1) :=
  ⟨(claim_C9 [0xFD]).1 rfl (by decide),
   (claim_C9 [0xFE]).2.1 rfl (by decide),
   (claim_C9 [0xFF]).2.2 rfl (by decide)⟩

/-- C10: `_update_status` on an address absent from the peer map leaves
the database unchanged, for any status value. -/
theorem claim_C10 (db : PeerDatabase) (now : Nat) (addr : SocketAddress)
    (status : PeerStatus) (h : db.lookup addr = none) :
    db._update_status now addr status = db := by
  simp [PeerDatabase._update_status, h]

/-- Witness for C10: updating an address not in a one-entry database. -/
theorem claim_C10_witness :
    PeerDatabase._update_status
      { peers := [(SocketAddress.v4 [1, 2, 3, 4] 8333,
          { address := SocketAddress.v4 [1, 2, 3, 4] 8333,
            last_seen := some 7, last_connected := none,
            status := PeerStatus.NeverTried, services := none })] }
      99 (SocketAddress.v4 [5, 6, 7, 8] 8333) PeerStatus.Banned =
    { peers := [(SocketAddress.v4 [1, 2, 3, 4] 8333,
        { address := SocketAddress.v4 [1, 2, 3, 4] 8333,
          last_seen := some 7, last_connected := none,
          status := PeerStatus.NeverTried, services := none })] } :=
  claim_C10 _ 99 (SocketAddress.v4 [5, 6, 7, 8] 8333) PeerStatus.Banned
    (by decide)

/-- C8: encoding a well-formed header and decoding the 24 bytes returns
the same four fields, and `MessageHeader::new` stamps the checksum with
the first 4 bytes of double SHA-256 of the payload and `payload_size`
with the payload length. -/
theorem claim_C8 (h : MessageHeader) (command payload : List Nat)
    (hm : h.magic.length = 4) (hc : h.command.length = 12)
    (hs : h.payload_size < M32) (hk : h.checksum.length = 4)
    (hcmd : command.length ≤ 12) (hpl : payload.length < M32) :
    MessageHeader.from_bytes h.to_bytes = some h ∧
    (MessageHeader.new command payload).checksum = (sha256d payload).take 4 ∧
    (MessageHeader.new command payload).payload_size = payload.length := by
  refine ⟨?_, rfl, Nat.mod_eq_of_lt hpl⟩
  have hlen : h.to_bytes.length = 24 := by
    simp [MessageHeader.to_bytes, toLE4, hm, hc, hk]
  have hassoc : h.to_bytes =
      h.magic ++ (h.command ++ (toLE4 h.payload_size ++ h.checksum)) := by
    simp [MessageHeader.to_bytes]
  have e1 : h.to_bytes.take 4 = h.magic := by
    rw [hassoc, ← hm, List.take_left]
  have edrop4 : h.to_bytes.drop 4 =
      h.command ++ (toLE4 h.payload_size ++ h.checksum) := by
    rw [hassoc, ← hm, List.drop_left]
  have e2 : (h.to_bytes.drop 4).take 12 = h.command := by
    rw [edrop4, ← hc, List.take_left]
  have edrop16 : h.to_bytes.drop 16 = toLE4 h.payload_size ++ h.checksum := by
    have : h.to_bytes.drop 16 = (h.to_bytes.drop 4).drop 12 := by
      rw [List.drop_drop]
    rw [this, edrop4, ← hc, List.drop_left]
  have e3 : fromLE ((h.to_bytes.drop 16).take 4) = h.payload_size := by
    rw [edrop16]
    rw [show (4 : Nat) = (toLE4 h.payload_size).length from rfl, List.take_left]
    exact fromLE_toLE4 _ hs
  have e4 : (h.to_bytes.drop 20).take 4 = h.checksum := by
    have hsplit : h.to_bytes.drop 20 = (h.to_bytes.drop 16).drop 4 := by
      rw [List.drop_drop]
    have hdl : (toLE4 h.payload_size ++ h.checksum).drop 4 = h.checksum := by
      rw [show (4 : Nat) = (toLE4 h.payload_size).length from rfl,
          List.drop_left]
    rw [hsplit, edrop16, hdl, ← hk, List.take_length]
  simp only [MessageHeader.from_bytes, hlen]
  rw [if_neg (by omega)]
  rw [e1, e2, e3, e4]

/-- Witness for C8: the `verack` header round-trips, and a `ping`
header built over an 8-byte payload carries its double-SHA-256 prefix
and length. -/
theorem claim_C8_witness :
    MessageHeader.from_bytes
      (MessageHeader.to_bytes
        { magic := MAGIC,
          command := [118, 101, 114, 97, 99, 107, 0, 0, 0, 0, 0, 0],
          payload_size := 8, checksum := [1, 2, 3, 4] }) =
      some { magic := MAGIC,
             command := [118, 101, 114, 97, 99, 107, 0, 0, 0, 0, 0, 0],
             payload_size := 8, checksum := [1, 2, 3, 4] } ∧
    (MessageHeader.new [112, 105, 110, 103] [1, 2, 3, 4, 5, 6, 7, 8]).checksum =
      (sha256d [1, 2, 3, 4, 5, 6, 7, 8]).take 4 ∧
    (MessageHeader.new [112, 105, 110, 103] [1, 2, 3, 4, 5, 6, 7, 8]).payload_size = 8 :=
  claim_C8 _ _ _ (by decide) (by decide) (by decide) (by decide) (by decide)
    (by decide)

/-- The header alone determines length at least 24 for the input. -/
theorem from_bytes_take_length {input : List Nat} {hdr : MessageHeader}
    (hhdr : MessageHeader.from_bytes (input.take 24) = some hdr) :
    24 ≤ input.length := by
  by_contra hlt
  rw [MessageHeader.from_bytes, if_pos (by simp [List.length_take]; omega)]
    at hhdr
  exact Option.noConfusion hhdr

/-- C2 (amended): `read_message` rejects a frame whose magic differs
from `F9 BE B4 D9`; a frame whose declared payload is truncated never
yields a delivered message; and a frame with a positive declared
payload length whose checksum field differs from the first 4 bytes of
double SHA-256 of the payload is rejected.  (A frame with declared
payload length zero skips checksum verification in the source.) -/
theorem claim_C2_amended (input : List Nat) (hdr : MessageHeader)
    (hhdr : MessageHeader.from_bytes (input.take 24) = some hdr) :
    (hdr.magic ≠ MAGIC → read_message input = .error .invalidMagic) ∧
    (hdr.magic = MAGIC → input.length < 24 + hdr.payload_size →
      ∀ m, read_message input ≠ .ok (some m)) ∧
    (hdr.magic = MAGIC → 24 + hdr.payload_size ≤ input.length →
      0 < hdr.payload_size →
      hdr.checksum ≠ (sha256d ((input.drop 24).take hdr.payload_size)).take 4 →
      read_message input = .error .invalidChecksum) := by
  have h24 : 24 ≤ input.length := from_bytes_take_length hhdr
  have hne : input ≠ [] := by
    intro hnil
    rw [hnil] at h24
    simp at h24
  have hdroplen : (input.drop 24).length = input.length - 24 := by
    simp
  refine ⟨?_, ?_, ?_⟩
  · intro hmag
    rw [read_message, if_neg hne]
    simp only [hhdr]
    rw [if_pos hmag]
  · intro hmag hshort m
    rw [read_message, if_neg hne]
    simp only [hhdr]
    rw [if_neg (fun hcon => hcon hmag),
        if_pos (by simp only [List.length_drop]; omega)]
    exact fun hx => Except.noConfusion hx
  · intro hmag hlong hpos hsum
    rw [read_message, if_neg hne]
    simp only [hhdr]
    rw [if_neg (fun hcon => hcon hmag),
        if_neg (by simp only [List.length_drop]; omega), if_pos hpos,
        if_pos hsum]

/-- The mainnet frame of the C2 counterexample: correct magic, zero
payload length, checksum field all zeros. -/
def c2frame : List Nat := MAGIC ++ List.replicate 12 0 ++ [0, 0, 0, 0] ++ [0, 0, 0, 0]

/-- The header carried by `c2frame`. -/
def c2hdr : MessageHeader :=
  { magic := MAGIC, command := List.replicate 12 0, payload_size := 0,
    checksum := [0, 0, 0, 0] }

/-- Counterexample to C2 as stated: a zero-length frame whose checksum
field (all zeros) differs from the first 4 bytes of double SHA-256 of
the empty payload (`5D F6 E0 E2`) is still accepted and delivered,
because the source only verifies the checksum when `payload_size > 0`. -/
theorem claim_C2_counterexample :
    read_message c2frame = .ok (some (c2hdr, [])) ∧
    c2hdr.checksum ≠ (sha256d []).take 4 := by
  constructor
  · rfl
  · decide

/-- A frame with wrong magic bytes. -/
def c2badmagic : List Nat :=
  [0, 0, 0, 0] ++ List.replicate 12 0 ++ [0, 0, 0, 0] ++ [0, 0, 0, 0]

/-- A frame declaring 5 payload bytes but carrying none. -/
def c2trunc : List Nat := MAGIC ++ List.replicate 12 0 ++ [5, 0, 0, 0] ++ [0, 0, 0, 0]

/-- A frame with one payload byte and a wrong checksum field. -/
def c2badsum : List Nat :=
  MAGIC ++ List.replicate 12 0 ++ [1, 0, 0, 0] ++ [9, 9, 9, 9] ++ [1]

/-- Witness for the amended C2 at three concrete frames. -/
theorem claim_C2_witness :
    read_message c2badmagic = .error .invalidMagic ∧
    read_message c2trunc ≠ .ok (some (c2hdr, [])) ∧
    read_message c2badsum = .error .invalidChecksum :=
  ⟨(claim_C2_amended c2badmagic
      { magic := [0, 0, 0, 0], command := List.replicate 12 0,
        payload_size := 0, checksum := [0, 0, 0, 0] } (by decide)).1
      (by decide),
   (claim_C2_amended c2trunc
      { magic := MAGIC, command := List.replicate 12 0,
        payload_size := 5, checksum := [0, 0, 0, 0] } (by decide)).2.1
      (by decide) (by decide) (c2hdr, []),
   (claim_C2_amended c2badsum
      { magic := MAGIC, command := List.replicate 12 0,
        payload_size := 1, checksum := [9, 9, 9, 9] } (by decide)).2.2
      (by decide) (by decide) (by decide) (by decide)⟩

/-! ### Inventory policy lemmas -/

/-- Hashes in the seen-set stay there across one policy step. -/
theorem inv_step_seen_mono (st : List (List Nat) × List InventoryItem)
    (item : InventoryItem) (x : List Nat) (hx : x ∈ st.1) :
    x ∈ (inv_step st item).1 := by
  rw [inv_step]
  by_cases hmem : item.hash ∈ st.1
  · rw [if_pos hmem]; exact hx
  · rw [if_neg hmem]
    cases item.inv_type <;> dsimp only <;> (try split) <;>
      exact List.mem_cons_of_mem _ hx

/-- Hashes in the seen-set stay there across the whole fold. -/
theorem inv_fold_seen_mono (items : List InventoryItem) :
    ∀ st x, x ∈ st.1 → x ∈ (items.foldl inv_step st).1 := by
  induction items with
  | nil => intro st x hx; exact hx
  | cons it rest ih =>
    intro st x hx
    exact ih (inv_step st it) x (inv_step_seen_mono st it x hx)

/-- The head item's hash lands in the seen-set after one step. -/
theorem inv_step_hash_mem (st : List (List Nat) × List InventoryItem)
    (item : InventoryItem) : item.hash ∈ (inv_step st item).1 := by
  rw [inv_step]
  by_cases hmem : item.hash ∈ st.1
  · rw [if_pos hmem]; exact hmem
  · rw [if_neg hmem]
    cases item.inv_type <;> dsimp only <;> (try split) <;>
      exact List.mem_cons_self _ _

/-- Every processed item's hash is in the final seen-set. -/
theorem inv_fold_hash_mem (items : List InventoryItem) :
    ∀ st, ∀ it ∈ items, it.hash ∈ (items.foldl inv_step st).1 := by
  induction items with
  | nil => intro st it hit; exact absurd hit (List.not_mem_nil it)
  | cons hd rest ih =>
    intro st it hit
    rcases List.mem_cons.mp hit with heq | hmem
    · subst heq
      exact inv_fold_seen_mono rest (inv_step st it) it.hash
        (inv_step_hash_mem st it)
    · exact ih (inv_step st hd) it hmem

/-- Items whose hashes are all already seen leave the state unchanged. -/
theorem inv_fold_all_seen (items : List InventoryItem) :
    ∀ st, (∀ it ∈ items, it.hash ∈ st.1) → items.foldl inv_step st = st := by
  induction items with
  | nil => intro st _; rfl
  | cons hd rest ih =>
    intro st hall
    have hstep : inv_step st hd = st := by
      rw [inv_step, if_pos (hall hd (List.mem_cons_self hd rest))]
    rw [List.foldl_cons, hstep]
    exact ih st (fun it hit => hall it (List.mem_cons_of_mem hd hit))

/-- Folding fresh, pairwise-distinct transactions: all hashes are
prepended to the seen-set and the batch gains the first
`10 - batch.length` of them. -/
theorem inv_fold_txs (txs : List InventoryItem) :
    ∀ (seen : List (List Nat)) (batch : List InventoryItem),
      (∀ it ∈ txs, it.inv_type = InventoryType.Transaction) →
      (∀ it ∈ txs, it.hash ∉ seen) →
      (txs.map InventoryItem.hash).Nodup →
      txs.foldl inv_step (seen, batch) =
        ((txs.map InventoryItem.hash).reverse ++ seen,
         batch ++ txs.take (10 - batch.length)) := by
  induction txs with
  | nil => intro seen batch _ _ _; simp
  | cons t rest ih =>
    intro seen batch hty hfresh hnd
    have htty : t.inv_type = InventoryType.Transaction :=
      hty t (List.mem_cons_self t rest)
    have htf : t.hash ∉ seen := hfresh t (List.mem_cons_self t rest)
    have hnd' := hnd
    rw [List.map_cons, List.nodup_cons] at hnd'
    have hstep : inv_step (seen, batch) t =
        (t.hash :: seen,
         if batch.length < 10 then batch ++ [t] else batch) := by
      simp only [inv_step, htty]
      rw [if_neg htf]
      by_cases hb2 : batch.length < 10
      · rw [if_pos hb2, if_pos hb2]
      · rw [if_neg hb2, if_neg hb2]
    have hfresh' : ∀ it ∈ rest, it.hash ∉ t.hash :: seen := by
      intro it hit
      rw [List.mem_cons]
      rintro (heq | hseen)
      · exact hnd'.1 (heq ▸ List.mem_map_of_mem InventoryItem.hash hit)
      · exact hfresh it (List.mem_cons_of_mem t hit) hseen
    rw [List.foldl_cons, hstep]
    by_cases hb : batch.length < 10
    · rw [if_pos hb,
          ih (t.hash :: seen) (batch ++ [t])
            (fun it hit => hty it (List.mem_cons_of_mem t hit)) hfresh' hnd'.2]
      refine congrArg₂ Prod.mk (by simp) ?_
      have hlen : (batch ++ [t]).length = batch.length + 1 := by simp
      rw [hlen, List.append_assoc]
      have : (10 - batch.length) = (10 - (batch.length + 1)) + 1 := by omega
      rw [this, List.take_succ_cons]
      simp
    · rw [if_neg hb,
          ih (t.hash :: seen) batch
            (fun it hit => hty it (List.mem_cons_of_mem t hit)) hfresh' hnd'.2]
      refine congrArg₂ Prod.mk (by simp) ?_
      have : (10 - batch.length) = 0 := by omega
      rw [this]
      have : (10 - batch.length) = 0 := by omega
      simp [this]

/-- Folding fresh, pairwise-distinct blocks onto a batch already
holding at least 3 items: all hashes are recorded but the batch is
unchanged. -/
theorem inv_fold_blocks_full (blocks : List InventoryItem) :
    ∀ (seen : List (List Nat)) (batch : List InventoryItem),
      (∀ it ∈ blocks, it.inv_type = InventoryType.Block) →
      (∀ it ∈ blocks, it.hash ∉ seen) →
      (blocks.map InventoryItem.hash).Nodup →
      3 ≤ batch.length →
      blocks.foldl inv_step (seen, batch) =
        ((blocks.map InventoryItem.hash).reverse ++ seen, batch) := by
  induction blocks with
  | nil => intro seen batch _ _ _ _; simp
  | cons b rest ih =>
    intro seen batch hty hfresh hnd hbatch
    have hbty : b.inv_type = InventoryType.Block :=
      hty b (List.mem_cons_self b rest)
    have hbf : b.hash ∉ seen := hfresh b (List.mem_cons_self b rest)
    have hnd' := hnd
    rw [List.map_cons, List.nodup_cons] at hnd'
    have hstep : inv_step (seen, batch) b = (b.hash :: seen, batch) := by
      simp only [inv_step, hbty]
      rw [if_neg hbf, if_neg (by omega : ¬ batch.length < 3)]
    have hfresh' : ∀ it ∈ rest, it.hash ∉ b.hash :: seen := by
      intro it hit
      rw [List.mem_cons]
      rintro (heq | hseen)
      · exact hnd'.1 (heq ▸ List.mem_map_of_mem InventoryItem.hash hit)
      · exact hfresh it (List.mem_cons_of_mem b hit) hseen
    rw [List.foldl_cons, hstep,
        ih (b.hash :: seen) batch
          (fun it hit => hty it (List.mem_cons_of_mem b hit)) hfresh' hnd'.2
          hbatch]
    refine congrArg₂ Prod.mk (by simp) rfl

/-- C1 (amended): for an inbound `inv` payload whose decoded items are
15 distinct transactions followed by 5 distinct blocks, processed on a
session with an empty seen-set, the single outbound `getdata` contains
exactly the first 10 transaction items and no block items: both the
10-item transaction limit and the 3-item block limit test the length of
the shared request batch, so once 10 transactions fill it no block joins
the batch. -/
theorem claim_C1_amended (payload : List Nat) (txs blocks : List InventoryItem)
    (hparse : parse_inv_message payload = txs ++ blocks)
    (htx : ∀ it ∈ txs, it.inv_type = InventoryType.Transaction)
    (hbl : ∀ it ∈ blocks, it.inv_type = InventoryType.Block)
    (htlen : txs.length = 15) (hblen : blocks.length = 5)
    (hnd : ((txs ++ blocks).map InventoryItem.hash).Nodup) :
    handle_inv_message [] payload =
      (((txs ++ blocks).map InventoryItem.hash).reverse,
       some (build_getdata_payload (txs.take 10))) := by
  have hndt : (txs.map InventoryItem.hash).Nodup := by
    rw [List.map_append] at hnd
    exact hnd.of_append_left
  have hndb : (blocks.map InventoryItem.hash).Nodup := by
    rw [List.map_append] at hnd
    exact hnd.of_append_right
  have hdisj : ∀ x ∈ blocks.map InventoryItem.hash,
      x ∉ txs.map InventoryItem.hash := by
    intro x hxb hxt
    rw [List.map_append] at hnd
    exact (List.disjoint_of_nodup_append hnd) hxt hxb
  have hnonempty : ¬ (txs ++ blocks).isEmpty = true := by
    rw [List.isEmpty_iff]
    intro hemp
    have := congrArg List.length hemp
    simp [htlen, hblen] at this
  have htake10 : (txs.take 10).length = 10 := by
    rw [List.length_take]
    omega
  have hfold : (txs ++ blocks).foldl inv_step ([], []) =
      (((txs ++ blocks).map InventoryItem.hash).reverse, txs.take 10) := by
    rw [List.foldl_append,
        inv_fold_txs txs [] [] htx (by simp) hndt]
    have hbase : ((txs.map InventoryItem.hash).reverse ++ ([] : List (List Nat)),
        ([] : List InventoryItem) ++ txs.take (10 - ([] : List InventoryItem).length)) =
        ((txs.map InventoryItem.hash).reverse, txs.take 10) := by
      simp
    rw [hbase,
        inv_fold_blocks_full blocks _ _ hbl
          (by
            intro it hit hmem
            rw [List.mem_reverse] at hmem
            exact hdisj it.hash (List.mem_map_of_mem InventoryItem.hash hit) hmem)
          hndb (by omega)]
    refine congrArg₂ Prod.mk ?_ rfl
    rw [List.map_append, List.reverse_append]
  simp only [handle_inv_message, hparse]
  rw [if_neg hnonempty, hfold]
  have hne2 : ¬ (txs.take 10).isEmpty = true := by
    rw [List.isEmpty_iff]
    intro hemp
    have := congrArg List.length hemp
    rw [htake10] at this
    simp at this
  rw [if_neg hne2]

/-- A 32-byte hash with distinguishing first byte `i`. -/
def c1hash (i : Nat) : List Nat := i :: List.replicate 31 0

/-- The 15 distinct transaction items of the C1 scenario. -/
def c1txs : List InventoryItem :=
  (List.range 15).map
    (fun i => { inv_type := InventoryType.Transaction, hash := c1hash (i + 1) })

/-- The 5 distinct block items of the C1 scenario. -/
def c1blocks : List InventoryItem :=
  (List.range 5).map
    (fun i => { inv_type := InventoryType.Block, hash := c1hash (i + 16) })

/-- The inbound `inv` payload of the C1 scenario (the `getdata` encoder
produces the identical framing the `inv` parser reads). -/
def c1payload : List Nat := build_getdata_payload (c1txs ++ c1blocks)

/-- Counterexample to C1 as stated: on an empty seen-set, the `inv` of
15 distinct Tx then 5 distinct Block items produces a `getdata` of
exactly the first 10 transactions and no blocks, not the claimed first
10 transactions plus first 3 blocks. -/
theorem claim_C1_counterexample :
    (handle_inv_message [] c1payload).2 =
      some (build_getdata_payload (c1txs.take 10)) ∧
    (handle_inv_message [] c1payload).2 ≠
      some (build_getdata_payload (c1txs.take 10 ++ c1blocks.take 3)) := by
  constructor
  · decide
  · decide

/-- Witness for the amended C1 at the concrete 15 Tx + 5 Block payload. -/
theorem claim_C1_amended_witness :
    handle_inv_message [] c1payload =
      (((c1txs ++ c1blocks).map InventoryItem.hash).reverse,
       some (build_getdata_payload (c1txs.take 10))) :=
  claim_C1_amended c1payload c1txs c1blocks (by decide) (by decide) (by decide)
    (by decide) (by decide) (by decide)

/-- C6: after an `inv` payload is processed, the hash of every decoded
item is in the session's seen-set, and a payload whose decoded items
carry only those same hashes then produces no `getdata` request. -/
theorem claim_C6 (seen : List (List Nat)) (payload payload2 : List Nat)
    (hsub : ∀ it2 ∈ parse_inv_message payload2,
      ∃ it ∈ parse_inv_message payload, it2.hash = it.hash) :
    (∀ it ∈ parse_inv_message payload,
      it.hash ∈ (handle_inv_message seen payload).1) ∧
    (handle_inv_message (handle_inv_message seen payload).1 payload2).2 = none := by
  have hA : ∀ it ∈ parse_inv_message payload,
      it.hash ∈ (handle_inv_message seen payload).1 := by
    by_cases hemp : (parse_inv_message payload).isEmpty = true
    · rw [List.isEmpty_iff] at hemp
      rw [hemp]
      intro it hit
      exact absurd hit (List.not_mem_nil it)
    · have h1 : (handle_inv_message seen payload).1 =
          ((parse_inv_message payload).foldl inv_step (seen, [])).1 := by
        simp only [handle_inv_message]
        rw [if_neg hemp]
        split <;> rfl
      intro it hit
      rw [h1]
      exact inv_fold_hash_mem (parse_inv_message payload) (seen, []) it hit
  refine ⟨hA, ?_⟩
  obtain ⟨S, hS⟩ : ∃ S, (handle_inv_message seen payload).1 = S := ⟨_, rfl⟩
  rw [hS] at hA ⊢
  by_cases hemp2 : (parse_inv_message payload2).isEmpty = true
  · simp only [handle_inv_message]
    rw [if_pos hemp2]
  · have hall : ∀ it2 ∈ parse_inv_message payload2,
        it2.hash ∈ (S, ([] : List InventoryItem)).1 := by
      intro it2 hit2
      obtain ⟨it, hit, heq⟩ := hsub it2 hit2
      rw [heq]
      exact hA it hit
    simp only [handle_inv_message]
    rw [if_neg hemp2, inv_fold_all_seen (parse_inv_message payload2) _ hall,
        if_pos (show ((S, ([] : List InventoryItem)).2.isEmpty = true) from rfl)]

/-- A 2-item `inv` payload used to witness C6. -/
def c6payload : List Nat :=
  build_getdata_payload
    [{ inv_type := InventoryType.Transaction, hash := c1hash 99 },
     { inv_type := InventoryType.Block, hash := c1hash 98 }]

/-- Witness for C6: both hashes of a 2-item payload enter the seen-set
and replaying the payload yields no `getdata`. -/
theorem claim_C6_witness :
    (∀ it ∈ parse_inv_message c6payload,
      it.hash ∈ (handle_inv_message [] c6payload).1) ∧
    (handle_inv_message (handle_inv_message [] c6payload).1 c6payload).2 = none :=
  claim_C6 [] c6payload c6payload (by decide)

/-! ### Peer database lemmas -/

/-- Editing the entry of a different key does not change a lookup. -/
theorem lookup_setEntry_ne (db : PeerDatabase) (a : SocketAddress)
    (info : PeerInfo) (addr : SocketAddress) (hne : a ≠ addr) :
    (db.setEntry a info).lookup addr = db.lookup addr := by
  obtain ⟨l⟩ := db
  simp only [PeerDatabase.setEntry, PeerDatabase.lookup]
  congr 1
  induction l with
  | nil => rfl
  | cons e t ih =>
    simp only [List.map_cons]
    by_cases h1 : e.1 = a
    · rw [if_pos h1,
          List.find?_cons_of_neg _ (by simp [hne]),
          List.find?_cons_of_neg _ (by simp [h1, hne])]
      exact ih
    · rw [if_neg h1]
      by_cases h2 : e.1 = addr
      · rw [List.find?_cons_of_pos _ (by simp [h2]),
            List.find?_cons_of_pos _ (by simp [h2])]
      · rw [List.find?_cons_of_neg _ (by simp [h2]),
            List.find?_cons_of_neg _ (by simp [h2])]
        exact ih

/-- Editing a present key makes its lookup return the new value. -/
theorem lookup_setEntry_self (db : PeerDatabase) (a : SocketAddress)
    (info : PeerInfo) (h : (db.lookup a).isSome = true) :
    (db.setEntry a info).lookup a = some info := by
  obtain ⟨l⟩ := db
  simp only [PeerDatabase.setEntry, PeerDatabase.lookup] at h ⊢
  induction l with
  | nil => simp [List.find?] at h
  | cons e t ih =>
    simp only [List.map_cons]
    by_cases h1 : e.1 = a
    · rw [if_pos h1, List.find?_cons_of_pos _ (by simp)]
      rfl
    · rw [if_neg h1, List.find?_cons_of_neg _ (by simp [h1])]
      rw [List.find?_cons_of_neg _ (by simp [h1])] at h
      exact ih h

/-- A key found in the front part of an association list is still found
after appending entries at the back. -/
theorem lookup_append_of_some (l l2 : List (SocketAddress × PeerInfo))
    (addr : SocketAddress) (p : PeerInfo)
    (h : PeerDatabase.lookup { peers := l } addr = some p) :
    PeerDatabase.lookup { peers := l ++ l2 } addr = some p := by
  simp only [PeerDatabase.lookup] at h ⊢
  induction l with
  | nil => simp [List.find?] at h
  | cons e t ih =>
    by_cases h1 : e.1 = addr
    · rw [List.find?_cons_of_pos _ (by simp [h1])] at h
      rw [List.cons_append, List.find?_cons_of_pos _ (by simp [h1])]
      exact h
    · rw [List.find?_cons_of_neg _ (by simp [h1])] at h
      rw [List.cons_append, List.find?_cons_of_neg _ (by simp [h1])]
      exact ih h

/-- Whether the record stored under `addr` has its `services` field set
(`false` when no record is stored). -/
def lookupServicesSet (db : PeerDatabase) (addr : SocketAddress) : Bool :=
  match db.lookup addr with
  | some q => q.services.isSome
  | none => false

/-- Registration never clears a set `services` field, under any key. -/
theorem servicesSet_register (db : PeerDatabase) (now : Nat)
    (a : SocketAddress) (srv : Option Nat) (addr : SocketAddress)
    (h : lookupServicesSet db addr = true) :
    lookupServicesSet (db.register_peer now a srv) addr = true := by
  rw [lookupServicesSet] at h
  cases hl : db.lookup addr with
  | none => rw [hl] at h; exact absurd h (by simp)
  | some p =>
    rw [hl] at h
    rw [PeerDatabase.register_peer]
    cases hfind : db.lookup a with
    | none =>
      rw [lookupServicesSet,
          lookup_append_of_some db.peers _ addr p hl]
      exact h
    | some entry =>
      by_cases heq : a = addr
      · subst heq
        have hep : entry = p := by
          rw [hl] at hfind
          exact (Option.some_injective _ hfind).symm
        rw [lookupServicesSet,
            lookup_setEntry_self db a _ (by rw [hfind]; rfl)]
        cases srv with
        | none => simpa [hep] using h
        | some s => simp
      · rw [lookupServicesSet, lookup_setEntry_ne db a _ addr heq, hl]
        exact h

/-- Status updates never clear a set `services` field. -/
theorem servicesSet_update (db : PeerDatabase) (now : Nat)
    (a : SocketAddress) (status : PeerStatus) (addr : SocketAddress)
    (h : lookupServicesSet db addr = true) :
    lookupServicesSet (db._update_status now a status) addr = true := by
  rw [lookupServicesSet] at h
  cases hl : db.lookup addr with
  | none => rw [hl] at h; exact absurd h (by simp)
  | some p =>
    rw [hl] at h
    rw [PeerDatabase._update_status]
    cases hfind : db.lookup a with
    | none => rw [lookupServicesSet, hl]; exact h
    | some peer =>
      by_cases heq : a = addr
      · subst heq
        have hep : peer = p := by
          rw [hl] at hfind
          exact (Option.some_injective _ hfind).symm
        rw [lookupServicesSet,
            lookup_setEntry_self db a _ (by rw [hfind]; rfl)]
        simpa [hep] using h
      · rw [lookupServicesSet, lookup_setEntry_ne db a _ addr heq, hl]
        exact h

/-- C3 (amended): over every sequence of `register_peer` and
`_update_status` operations, the `services` field of a stored record,
once `Some`, is never reset to `None`.  The other half of the original
claim, `last_connected ≤ last_seen`, does not hold: `_update_status`
stamps `last_connected` with the current time without refreshing
`last_seen` (see the counterexample). -/
theorem claim_C3_amended (ops : List DbOp) :
    ∀ (db : PeerDatabase) (addr : SocketAddress),
      lookupServicesSet db addr = true →
      lookupServicesSet (applyOps db ops) addr = true := by
  induction ops with
  | nil => intro db addr h; exact h
  | cons op rest ih =>
    intro db addr h
    cases op with
    | reg now a srv =>
      simp only [applyOps]
      exact ih _ addr (servicesSet_register db now a srv addr h)
    | upd now a status =>
      simp only [applyOps]
      exact ih _ addr (servicesSet_update db now a status addr h)

/-- The address used in the C3 scenario. -/
def c3addr : SocketAddress := SocketAddress.v4 [1, 2, 3, 4] 8333

/-- The claimed record invariant of C3, stated from the claim for
refutation: whenever both timestamps are set, `last_connected` does not
exceed `last_seen`. -/
def timesOrdered (p : PeerInfo) : Bool :=
  match p.last_connected, p.last_seen with
  | some lc, some ls => lc ≤ ls
  | _, _ => true

/-- Counterexample to C3 as stated: registering a peer at second 0 and
marking it `ConnectedRecently` at second 1 leaves
`last_connected = 1 > last_seen = 0`, because `_update_status` does not
refresh `last_seen`. -/
theorem claim_C3_counterexample :
    ¬ ∀ e ∈ (applyOps PeerDatabase.empty
        [DbOp.reg 0 c3addr none,
         DbOp.upd 1 c3addr PeerStatus.ConnectedRecently]).peers,
      timesOrdered e.2 = true := by decide

/-- Witness for the amended C3: a record registered with
`services = Some 1` keeps a set `services` across a re-registration
with `None` and a status update. -/
theorem claim_C3_amended_witness :
    lookupServicesSet
      (applyOps
        { peers := [(c3addr,
            { address := c3addr, last_seen := some 5, last_connected := none,
              status := PeerStatus.NeverTried, services := some 1 })] }
        [DbOp.reg 9 c3addr none, DbOp.upd 10 c3addr PeerStatus.Unreachable])
      c3addr = true :=
  claim_C3_amended _ _ c3addr (by decide)

/-! ### Address parsing lemmas -/

/-- The compact-size prefix is never empty. -/
theorem compactSizeOfCount_ne_nil (n : Nat) : compactSizeOfCount n ≠ [] := by
  rw [compactSizeOfCount]
  split_ifs <;> simp

/-- The entry loop consumes exactly `k` complete 30-byte entries when at
least `k` are available, whatever trails them. -/
theorem parse_addr_loop_take (k : Nat) :
    ∀ (entries : List (List Nat)) (pre rest : List Nat),
      (∀ e ∈ entries, e.length = 30) → k ≤ entries.length →
      parse_addr_loop k pre.length (pre ++ entries.flatten ++ rest) =
        (entries.take k).map decode_addr_entry := by
  induction k with
  | zero => intro entries pre rest _ _; simp [parse_addr_loop]
  | succ k ih =>
    intro entries pre rest hlen hk
    match entries with
    | [] => simp at hk
    | e :: es =>
      have he : e.length = 30 := hlen e (List.mem_cons_self e es)
      have hes : ∀ x ∈ es, x.length = 30 :=
        fun x hx => hlen x (List.mem_cons_of_mem e hx)
      have hflat : (e :: es).flatten = e ++ es.flatten := List.flatten_cons
      have hpaylen : (pre ++ (e :: es).flatten ++ rest).length =
          pre.length + 30 + es.flatten.length + rest.length := by
        rw [hflat]
        simp [he]
        omega
      rw [parse_addr_loop]
      rw [if_neg (by omega)]
      have hdrop : (pre ++ (e :: es).flatten ++ rest).drop pre.length =
          e ++ (es.flatten ++ rest) := by
        rw [hflat, show pre ++ (e ++ es.flatten) ++ rest =
              pre ++ (e ++ (es.flatten ++ rest)) by simp [List.append_assoc],
            List.drop_left]
      have htake : ((pre ++ (e :: es).flatten ++ rest).drop pre.length).take 30 = e := by
        rw [hdrop]
        exact List.take_left' he
      have hrearr : pre ++ (e :: es).flatten ++ rest =
          (pre ++ e) ++ es.flatten ++ rest := by
        rw [hflat]
        simp [List.append_assoc]
      have hoff : pre.length + 30 = (pre ++ e).length := by simp [he]
      rw [htake, hoff, hrearr,
          ih es (pre ++ e) rest hes (by simpa using hk)]
      rw [List.take_succ_cons, List.map_cons]

/-- The entry loop stops cleanly at a trailing fragment shorter than 30
bytes, returning the entries parsed so far. -/
theorem parse_addr_loop_trunc (entries : List (List Nat)) :
    ∀ (k : Nat) (pre rest : List Nat),
      (∀ e ∈ entries, e.length = 30) → entries.length < k → rest.length < 30 →
      parse_addr_loop k pre.length (pre ++ entries.flatten ++ rest) =
        entries.map decode_addr_entry := by
  induction entries with
  | nil =>
    intro k pre rest _ hk hrest
    match k with
    | 0 => simp at hk
    | k + 1 =>
      rw [parse_addr_loop]
      rw [if_pos (by simp; omega)]
      rfl
  | cons e es ih =>
    intro k pre rest hlen hk hrest
    match k with
    | 0 => simp at hk
    | k + 1 =>
      have he : e.length = 30 := hlen e (List.mem_cons_self e es)
      have hes : ∀ x ∈ es, x.length = 30 :=
        fun x hx => hlen x (List.mem_cons_of_mem e hx)
      have hflat : (e :: es).flatten = e ++ es.flatten := List.flatten_cons
      have hpaylen : (pre ++ (e :: es).flatten ++ rest).length =
          pre.length + 30 + es.flatten.length + rest.length := by
        rw [hflat]
        simp [he]
        omega
      rw [parse_addr_loop]
      rw [if_neg (by omega)]
      have hdrop : (pre ++ (e :: es).flatten ++ rest).drop pre.length =
          e ++ (es.flatten ++ rest) := by
        rw [hflat, show pre ++ (e ++ es.flatten) ++ rest =
              pre ++ (e ++ (es.flatten ++ rest)) by simp [List.append_assoc],
            List.drop_left]
      have htake : ((pre ++ (e :: es).flatten ++ rest).drop pre.length).take 30 = e := by
        rw [hdrop]
        exact List.take_left' he
      have hrearr : pre ++ (e :: es).flatten ++ rest =
          (pre ++ e) ++ es.flatten ++ rest := by
        rw [hflat]
        simp [List.append_assoc]
      have hoff : pre.length + 30 = (pre ++ e).length := by simp [he]
      rw [htake, hoff, hrearr,
          ih k (pre ++ e) rest hes (by simpa using hk) hrest,
          List.map_cons]

/-- C4 (amended): for an `addr` payload declaring `n` entries,
`parse_addr_message` returns one address per complete 30-byte entry up
to the source's cap of `min n 10` (not `n` as claimed); each entry
decodes as IPv4 exactly when its 16-byte IP field starts with ten zero
bytes then `FF FF`, with the port read big-endian; and when the
remaining bytes run out before the declared count the parser stops
cleanly with the entries parsed so far instead of raising. -/
theorem claim_C4_amended (n : Nat) (hn : n < 18446744073709551616)
    (entries : List (List Nat)) (hlen : ∀ e ∈ entries, e.length = 30) :
    (entries.length = n →
      parse_addr_message (compactSizeOfCount n ++ entries.flatten) =
        (entries.take (min n 10)).map decode_addr_entry) ∧
    (∀ rest : List Nat, entries.length < min n 10 → rest.length < 30 →
      parse_addr_message (compactSizeOfCount n ++ entries.flatten ++ rest) =
        entries.map decode_addr_entry) ∧
    (∀ e : List Nat,
      (e.drop 12).take 12 = [0, 0, 0, 0, 0, 0, 0, 0, 0, 0, 0xFF, 0xFF] →
      decode_addr_entry e =
        SocketAddress.v4 ((e.drop 24).take 4) (fromBE ((e.drop 28).take 2))) ∧
    (∀ e : List Nat,
      (e.drop 12).take 12 ≠ [0, 0, 0, 0, 0, 0, 0, 0, 0, 0, 0xFF, 0xFF] →
      decode_addr_entry e =
        SocketAddress.v6 ((e.drop 12).take 16) (fromBE ((e.drop 28).take 2))) := by
  have hip12 : ∀ e : List Nat, ((e.drop 12).take 16).take 12 = (e.drop 12).take 12 := by
    intro e
    simp [List.take_take]
  refine ⟨?_, ?_, ?_, ?_⟩
  · intro hel
    by_cases hn0 : n = 0
    · subst hn0
      have hnil : entries = [] := List.length_eq_zero.mp hel
      subst hnil
      simp only [List.flatten_nil, List.append_nil, List.take_nil,
        List.map_nil]
      decide
    · have hne : compactSizeOfCount n ++ entries.flatten ≠ [] := by
        intro hcon
        exact compactSizeOfCount_ne_nil n (List.append_eq_nil.mp hcon).1
      rw [parse_addr_message, if_neg hne]
      simp only [parse_csize_append n hn entries.flatten]
      rw [if_neg hn0]
      have := parse_addr_loop_take (min n 10) entries (compactSizeOfCount n) []
        hlen (by omega)
      simpa using this
  · intro rest hshort hrest
    have hmin : 0 < min n 10 := by omega
    have hne : compactSizeOfCount n ++ entries.flatten ++ rest ≠ [] := by
      intro hcon
      exact compactSizeOfCount_ne_nil n
        (List.append_eq_nil.mp (List.append_eq_nil.mp hcon).1).1
    rw [show compactSizeOfCount n ++ entries.flatten ++ rest =
          compactSizeOfCount n ++ (entries.flatten ++ rest) by
        simp [List.append_assoc]] at hne ⊢
    rw [parse_addr_message, if_neg hne]
    simp only [parse_csize_append n hn (entries.flatten ++ rest)]
    rw [if_neg (by omega)]
    have := parse_addr_loop_trunc entries (min n 10) (compactSizeOfCount n) rest
      hlen hshort hrest
    rw [show compactSizeOfCount n ++ entries.flatten ++ rest =
          compactSizeOfCount n ++ (entries.flatten ++ rest) by
        simp [List.append_assoc]] at this
    exact this
  · intro e hip
    rw [decode_addr_entry]
    simp only [hip12 e, hip]
    rw [if_pos trivial, List.drop_take, List.drop_drop]
  · intro e hip
    rw [decode_addr_entry]
    simp only [hip12 e]
    rw [if_neg hip]

/-- One 30-byte `addr` entry: timestamp 0, services 0, the
IPv4-in-IPv6 mapping of `1.2.3.4`, port 8333 big-endian. -/
def c4entry : List Nat :=
  List.replicate 4 0 ++ List.replicate 8 0 ++
  (List.replicate 10 0 ++ [0xFF, 0xFF] ++ [1, 2, 3, 4]) ++ [0x20, 0x8D]

/-- An `addr` payload declaring 11 entries and carrying all 330 bytes. -/
def c4payload : List Nat := 11 :: (List.replicate 11 c4entry).flatten

/-- Counterexample to C4 as stated: a payload declaring 11 complete
entries yields only 10 addresses, because the source caps the loop at
`count.min(10)`. -/
theorem claim_C4_counterexample :
    (parse_compact_size c4payload).1 = 11 ∧
    parse_addr_message c4payload =
      List.replicate 10 (SocketAddress.v4 [1, 2, 3, 4] 8333) ∧
    (parse_addr_message c4payload).length ≠ 11 := by
  refine ⟨by decide, by decide, by decide⟩

/-- Witness for the amended C4 at the 11-entry payload: exactly
`min 11 10` addresses come back. -/
theorem claim_C4_amended_witness :
    parse_addr_message (compactSizeOfCount 11 ++ (List.replicate 11 c4entry).flatten) =
      ((List.replicate 11 c4entry).take (min 11 10)).map decode_addr_entry :=
  (claim_C4_amended 11 (by decide) (List.replicate 11 c4entry) (by decide)).1
    (by decide)

/-! ### DNS responder lemmas -/

/-- Address well-formedness carried by `std::net`: an IPv4 address has
exactly 4 octets (IPv6 RDATA is emitted as `0.0.0.0` regardless). -/
def addrWF : SocketAddress → Bool
  | .v4 ip _ => ip.length = 4
  | .v6 _ _ => true

theorem dns_answer_record_length (a : SocketAddress) (h : addrWF a = true) :
    (dns_answer_record a).length = 16 := by
  cases a with
  | v4 ip p =>
    simp only [addrWF, decide_eq_true_eq] at h
    simp [dns_answer_record, dns_rdata, h]
  | v6 ip p => simp [dns_answer_record, dns_rdata]

theorem length_flatMap_16 (l : List SocketAddress)
    (f : SocketAddress → List Nat) (hf : ∀ a ∈ l, (f a).length = 16) :
    (l.flatMap f).length = 16 * l.length := by
  induction l with
  | nil => simp
  | cons a t ih =>
    rw [List.flatMap_cons, List.length_append, hf a (List.mem_cons_self a t),
        ih (fun x hx => hf x (List.mem_cons_of_mem a hx)), List.length_cons]
    ring

theorem reachable_peers_length (db : PeerDatabase) :
    (reachable_peers db).length =
      (db.peers.filter
        (fun e => e.2.status = PeerStatus.ConnectedRecently)).length := by
  simp [reachable_peers]

/-- ANCOUNT is the sampled-peer count, as a `u16`. -/
theorem ancount_build (req : List Nat) (txid : Nat)
    (sample : List SocketAddress) :
    ancount (build_dns_response req txid sample) = sample.length % 65536 := by
  simp [build_dns_response, toBE2, ancount, fromBE]
  try omega

/-- The response is the 12-byte header, the copied question section,
and sixteen bytes per sampled peer. -/
theorem build_dns_response_length (req : List Nat) (txid : Nat)
    (sample : List SocketAddress) (hwfs : ∀ a ∈ sample, addrWF a = true) :
    (build_dns_response req txid sample).length =
      12 + ((req.drop 12).take (dns_question_end req.length 12 req - 12)).length +
        16 * sample.length := by
  simp only [build_dns_response, toBE2, List.length_append, List.length_cons,
    List.length_nil]
  rw [length_flatMap_16 sample _
    (fun a ha => dns_answer_record_length a (hwfs a ha))]
  try ring

/-- C5: for a query parsed as an accepted A-query, with `k` records in
`ConnectedRecently` status and a sample drawn as `choose_multiple`
guarantees (no duplicates, from the reachable subset, of size
`min k 10`), the response carries ANCOUNT `min k 10`, exactly that many
16-byte A-records after the copied question, every sampled peer has a
`ConnectedRecently` record, and no peer appears twice. -/
theorem claim_C5 (db : PeerDatabase) (req : List Nat) (txid : Nat)
    (qname : List (List Nat)) (sample : List SocketAddress)
    (hq : parse_dns_query req = some (txid, true, qname))
    (hwf : ∀ e ∈ db.peers, addrWF e.2.address = true)
    (hnd : sample.Nodup)
    (hsub : ∀ a ∈ sample, a ∈ reachable_peers db)
    (hslen : sample.length = min (reachable_peers db).length 10) :
    ancount (build_dns_response req txid sample) =
      min (db.peers.filter
        (fun e => e.2.status = PeerStatus.ConnectedRecently)).length 10 ∧
    (build_dns_response req txid sample).length =
      12 + ((req.drop 12).take (dns_question_end req.length 12 req - 12)).length +
        16 * min (db.peers.filter
          (fun e => e.2.status = PeerStatus.ConnectedRecently)).length 10 ∧
    (∀ a ∈ sample, ∃ e ∈ db.peers,
      e.2.status = PeerStatus.ConnectedRecently ∧ e.2.address = a) ∧
    sample.Nodup := by
  have hk : sample.length =
      min (db.peers.filter
        (fun e => e.2.status = PeerStatus.ConnectedRecently)).length 10 := by
    rw [hslen, reachable_peers_length]
  have hmem : ∀ a ∈ sample, ∃ e ∈ db.peers,
      e.2.status = PeerStatus.ConnectedRecently ∧ e.2.address = a := by
    intro a ha
    have hr := hsub a ha
    rw [reachable_peers] at hr
    obtain ⟨e, he, heq⟩ := List.mem_map.mp hr
    obtain ⟨hin, hpred⟩ := List.mem_filter.mp he
    exact ⟨e, hin, of_decide_eq_true hpred, heq⟩
  have hwfs : ∀ a ∈ sample, addrWF a = true := by
    intro a ha
    obtain ⟨e, he, _, heq⟩ := hmem a ha
    rw [← heq]
    exact hwf e he
  refine ⟨?_, ?_, hmem, hnd⟩
  · rw [ancount_build, hk]
    exact Nat.mod_eq_of_lt (by omega)
  · rw [build_dns_response_length req txid sample hwfs, hk]

/-- ConnectedRecently peer used in the C5 witness. -/
def c5addrA : SocketAddress := SocketAddress.v4 [10, 0, 0, 1] 8333

/-- NeverTried peer used in the C5 witness. -/
def c5addrB : SocketAddress := SocketAddress.v4 [10, 0, 0, 2] 8333

/-- Second ConnectedRecently peer used in the C5 witness. -/
def c5addrC : SocketAddress := SocketAddress.v4 [10, 0, 0, 3] 8333

/-- Record of the first reachable peer. -/
def c5recA : PeerInfo :=
  { address := c5addrA, last_seen := some 1, last_connected := some 1,
    status := PeerStatus.ConnectedRecently, services := none }

/-- Record of the unreached peer. -/
def c5recB : PeerInfo :=
  { address := c5addrB, last_seen := some 1, last_connected := none,
    status := PeerStatus.NeverTried, services := none }

/-- Record of the second reachable peer. -/
def c5recC : PeerInfo :=
  { address := c5addrC, last_seen := some 2, last_connected := some 2,
    status := PeerStatus.ConnectedRecently, services := some 1 }

/-- A three-peer database with two `ConnectedRecently` records. -/
def c5db : PeerDatabase :=
  { peers := [(c5addrA, c5recA), (c5addrB, c5recB), (c5addrC, c5recC)] }

/-- An A-query for the label `seed`, txid 7, recursion desired. -/
def c5req : List Nat :=
  [0, 7, 1, 0, 0, 1, 0, 0, 0, 0, 0, 0] ++ [4, 115, 101, 101, 100, 0] ++
  [0, 1, 0, 1]

/-- Witness for C5: with two reachable peers the response's ANCOUNT is
`min 2 10 = 2`. -/
theorem claim_C5_witness :
    ancount (build_dns_response c5req 7 [c5addrA, c5addrC]) =
      min (c5db.peers.filter
        (fun e => e.2.status = PeerStatus.ConnectedRecently)).length 10 :=
  (claim_C5 c5db c5req 7 [[115, 101, 101, 100]] [c5addrA, c5addrC]
    (by decide) (by decide) (by decide) (by decide) (by decide)).1

end BtcSeminar
